import Mathlib

/-!
# Shio: a terminal client for an anime catalog — verification of spec claims

Shallow embedding of the parts of `src/api.rs` and `src/main.rs` that the
claims concern:

* the post-parse logic of `Api::get_episode_list` (episode sorting, mode
  lookup) — present identically in both files;
* the URL-resolution rewrites of `Api::get_episode_links` (both the
  `src/api.rs` variant, which prefixes `https:` and performs secondary
  clock resolution, and the `src/main.rs` variant, which prefixes `http:`
  and performs no secondary resolution);
* `Api::resolve_clock_urls` over a model of `serde_json::Value`;
* the UI loop of `App::main_loop` (message application, row-index map,
  cursor) and `App::update_row_to_data_index` (fuzzy filter).

Network calls are modelled as oracles (`net : String → Option Json` where
`none` is a transport or JSON-decode failure).  The byte-level
de-obfuscation routine `decrypt_url` lives in `src/utils.rs`, which is not
part of the reviewed sources; following the spec it is treated as an
abstract pure function `decrypt : String → String` (spec §4.2: "opaque
token → literal URL string", concrete transform out of scope).  The nucleo
fuzzy matcher (`Pattern::score`) is external-crate code, modelled as an
oracle `score : String → String → Option Nat` (query text, haystack) where
`none` means "no match".  Floating-point episode labels are modelled at
exact (unbounded) precision: a parsed value is `m * 10^e` with integer
`m`, `e`, plus `±inf`/`NaN` specials; this matches `f64` semantics except
for labels needing more than `f64`'s 53-bit mantissa or beyond its
exponent range.
-/

/-! ## String primitives

Rust `str` operations used by the source, modelled on `String.data`
(`List Char`); all patterns in the source are ASCII, so char-level and
byte-level indexing agree. -/

/-- Model of Rust `str::starts_with` (char-list prefix test). -/
def isPrefixB : List Char → List Char → Bool
  | [], _ => true
  | _ :: _, [] => false
  | a :: as, b :: bs => a == b && isPrefixB as bs

/-- Model of Rust `str::contains` (char-list substring test). -/
def containsB (pat : List Char) : List Char → Bool
  | [] => pat.isEmpty
  | l@(_ :: rest) => isPrefixB pat l || containsB pat rest

def strStarts (s p : String) : Bool := isPrefixB p.data s.data

def strContains (s p : String) : Bool := containsB p.data s.data

/-- Model of Rust byte slicing `&s[n..]` for an ASCII prefix of length `n`. -/
def strDrop (s : String) (n : Nat) : String := ⟨s.data.drop n⟩

/-- Leftmost, non-overlapping replacement; fuel is the list length.  Each
step either consumes one char or a full (non-empty) pattern match, so
`l.length` fuel always suffices. -/
def replaceAux (pat repl : List Char) : Nat → List Char → List Char
  | _, [] => []
  | 0, l => l
  | fuel + 1, c :: rest =>
    if isPrefixB pat (c :: rest) then
      repl ++ replaceAux pat repl fuel ((c :: rest).drop pat.length)
    else
      c :: replaceAux pat repl fuel rest

/-- Model of Rust `str::replace` (all leftmost non-overlapping occurrences).
The source only calls it with the non-empty pattern `"/clock"`; the empty
pattern is passed through unchanged. -/
def strReplace (s pat repl : String) : String :=
  if pat.data.isEmpty then s else ⟨replaceAux pat.data repl.data s.data.length s.data⟩

/-! ## Model of `f64` episode-label parsing (`api.rs` lines 244-250)

`a.parse::<f64>().unwrap_or(0.0)` followed by `partial_cmp(..).unwrap_or(Equal)`. -/

/-- An `f64` value at exact precision: `fin m e` stands for `m * 10^e`. -/
inductive FVal where
  | nan
  | negInf
  | posInf
  | fin (m : Int) (e : Int)
deriving DecidableEq, Repr

/-- Numeric value of an ASCII digit string (most significant first). -/
def digitsToNat (ds : List Char) : Nat :=
  ds.foldl (fun a c => a * 10 + (c.toNat - 48)) 0

/-- Case-insensitive comparison against a lowercase literal. -/
def lowerEq (cs : List Char) (lit : List Char) : Bool :=
  cs.map Char.toLower == lit

/-- Exponent suffix of the `f64` grammar: optional sign then one or more
digits, nothing after. -/
def parseExpDigits (esign : Int) (u : List Char) : Option Int :=
  if u.isEmpty then none
  else if u.all Char.isDigit then some (esign * (digitsToNat u : Int))
  else none

def parseExp : List Char → Option Int
  | '+' :: u => parseExpDigits 1 u
  | '-' :: u => parseExpDigits (-1) u
  | u => parseExpDigits 1 u

/-- Decimal number of the `f64` grammar: digits, optional `.` and fraction
digits (at least one digit in total), optional `e`/`E` exponent. -/
def parseDec (sign : Int) (cs : List Char) : Option FVal :=
  let ip := cs.takeWhile Char.isDigit
  let r1 := cs.dropWhile Char.isDigit
  let fp :=
    match r1 with
    | '.' :: t => t.takeWhile Char.isDigit
    | _ => []
  let r2 :=
    match r1 with
    | '.' :: t => t.dropWhile Char.isDigit
    | _ => r1
  if ip.isEmpty && fp.isEmpty then none
  else
    let m : Int := sign * (digitsToNat (ip ++ fp) : Int)
    let e0 : Int := -(fp.length : Int)
    match r2 with
    | [] => some (.fin m e0)
    | 'e' :: t => (parseExp t).map (fun ex => .fin m (e0 + ex))
    | 'E' :: t => (parseExp t).map (fun ex => .fin m (e0 + ex))
    | _ => none

/-- Model of Rust `s.parse::<f64>()` at exact precision; `none` is a parse
error.  Accepts an optional sign, then case-insensitive `inf`, `infinity`
or `nan`, or a decimal number. -/
def parseF64 (s : String) : Option FVal :=
  match s.data with
  | [] => none
  | cs =>
    let sign : Int := match cs with | '-' :: _ => -1 | _ => 1
    let rest := match cs with | '+' :: t => t | '-' :: t => t | t => t
    if lowerEq rest ['i', 'n', 'f'] || lowerEq rest ['i', 'n', 'f', 'i', 'n', 'i', 't', 'y'] then
      some (if sign = 1 then .posInf else .negInf)
    else if lowerEq rest ['n', 'a', 'n'] then some .nan
    else parseDec sign rest

/-- `a.parse::<f64>().unwrap_or(0.0)` — the sort key of an episode label. -/
def epval (s : String) : FVal := (parseF64 s).getD (.fin 0 0)

/-- Model of `f64::partial_cmp`: `none` exactly when either side is NaN;
finite values are compared exactly by cross-scaling to a common power of
ten. -/
def fcmp : FVal → FVal → Option Ordering
  | .nan, _ => none
  | _, .nan => none
  | .negInf, .negInf => some .eq
  | .negInf, _ => some .lt
  | _, .negInf => some .gt
  | .posInf, .posInf => some .eq
  | .posInf, _ => some .gt
  | _, .posInf => some .lt
  | .fin m1 e1, .fin m2 e2 =>
    let x := m1 * 10 ^ (e1 - min e1 e2).toNat
    let y := m2 * 10 ^ (e2 - min e1 e2).toNat
    some (if x < y then .lt else if y < x then .gt else .eq)

/-- The exact rational value `m * 10^e` denoted by `FVal.fin m e`. -/
def finVal (m e : Int) : ℚ := (m : ℚ) * (10 : ℚ) ^ e

/-- Numeric interpretation of non-NaN float values in a linear order
(NaN is mapped to the bottom but is always excluded by hypothesis). -/
def fkey : FVal → WithBot (WithTop ℚ)
  | .nan => ⊥
  | .negInf => ⊥
  | .posInf => ⊤
  | .fin m e => ((finVal m e : ℚ) : WithTop ℚ)

/-- The comparator of `episodes.sort_by` in `Api::get_episode_list`:
`a_num.partial_cmp(&b_num).unwrap_or(Equal)`. -/
def epOrd (a b : String) : Ordering := (fcmp (epval a) (epval b)).getD .eq

/-- `epOrd` as a "take left element" test of a stable sort: a stable sort
keeps `a` before `b` iff the comparator does not say `Greater`. -/
def epLe (a b : String) : Bool := epOrd a b != Ordering.gt

/-! ## Stable sort

Rust `slice::sort_by` is a stable sort; for a total preorder comparator
every stable sort produces the same output, so it is modelled by a stable
insertion sort. -/

/-- Insert `a` into `l`, keeping `a` before the first element `b` with
`le a b`; elements equivalent to `a` that are already in `l` stay before
`a`. -/
def insertLe (le : α → α → Bool) (a : α) : List α → List α
  | [] => [a]
  | b :: l => if le a b then a :: b :: l else b :: insertLe le a l

/-- Stable sort modelling Rust `slice::sort_by`. -/
def sortByStable (le : α → α → Bool) : List α → List α
  | [] => []
  | a :: l => insertLe le a (sortByStable le l)

/-! ## `src/api.rs`: response shapes and `Api::get_episode_list` -/

/-- Response shape of the show-detail query (`api.rs` `ShowDetail`);
`available_episodes_detail` models the `HashMap<String, Vec<String>>`
(unique keys) as an association list. -/
structure ShowDetail where
  id : String
  name : String
  available_episodes_detail : List (String × List String)
deriving DecidableEq, Repr

/-- Post-parse logic of `Api::get_episode_list` (`api.rs` lines 236-256,
identical in `main.rs` lines 249-272): look up the configured mode in the
per-mode episode map, fail with the mode-naming message if absent, sort the
episode labels with the float comparator.  The `debug` flag is `false`
(the `api.rs` debug branch is `unimplemented!()`). -/
def get_episode_list (mode : String) (showd : ShowDetail) :
    Except String (String × List String × String) :=
  match showd.available_episodes_detail.lookup mode with
  | none => .error ("No episodes found for mode \x27" ++ mode ++ "\x27")
  | some episodes => .ok (showd.name, sortByStable epLe episodes, showd.id)

/-! ## `src/api.rs`: JSON model and `Api::resolve_clock_urls` -/

/-- Model of `serde_json::Value`. -/
inductive Json where
  | null
  | bool (b : Bool)
  | num (n : Int)
  | str (s : String)
  | arr (xs : List Json)
  | obj (kvs : List (String × Json))

/-- `serde_json::Value` indexing `v["k"]`: `Null` when the value is not an
object or the key is absent. -/
def Json.index (j : Json) (k : String) : Json :=
  match j with
  | .obj kvs => (kvs.lookup k).getD .null
  | _ => .null

/-- `Value::as_array`. -/
def Json.asArr : Json → Option (List Json)
  | .arr xs => some xs
  | _ => none

/-- `Value::as_str`. -/
def Json.asStr : Json → Option String
  | .str s => some s
  | _ => none

/-- `Api::resolve_clock_urls` (`api.rs` lines 209-222).  `net url = none`
models a failed GET or JSON decode (the `?` propagation); the function
returns the `link` string of the first element of the `links` array, and
fails (`none`, for the source's `Err("Could not find ...")`) otherwise. -/
def resolve_clock_urls (net : String → Option Json) (url : String) : Option String :=
  match net url with
  | none => none
  | some json =>
    match (json.index "links").asArr with
    | some links_array =>
      match links_array.head? with
      | some first_item => (first_item.index "link").asStr
      | none => none
    | none => none

/-! ## `src/api.rs`: URL-resolution rewrites of `Api::get_episode_links`

The source (lines 173-197) is a chain of four `let uri = ...` rebindings;
each is one definition here. -/

/-- First rebinding (`api.rs` lines 173-179): de-obfuscation chained with
protocol completion.  A locator carrying the `--` marker is decrypted and
nothing further happens in this step; otherwise a protocol-relative `//`
locator gets the `https:` scheme. -/
def step1 (decrypt : String → String) (raw_uri : String) : String :=
  if strStarts raw_uri "--" then decrypt (strDrop raw_uri 2)
  else if strStarts raw_uri "//" then "https:" ++ raw_uri
  else raw_uri

/-- Same rebinding in the `src/main.rs` copy (lines 202-208), which
prefixes `http:` instead of `https:`. -/
def step1Main (decrypt : String → String) (raw_uri : String) : String :=
  if strStarts raw_uri "--" then decrypt (strDrop raw_uri 2)
  else if strStarts raw_uri "//" then "http:" ++ raw_uri
  else raw_uri

/-- Second rebinding (`api.rs` lines 181-185): `/clock` → `/clock.json`
path normalization. -/
def step2 (uri : String) : String :=
  if strContains uri "/clock" && !(strContains uri "/clock.json") then
    strReplace uri "/clock" "/clock.json"
  else uri

/-- Third rebinding (`api.rs` lines 187-191): host completion for bare
`/apivtwo/` paths. -/
def step3 (uri : String) : String :=
  if strStarts uri "/apivtwo/" then "https://allanime.day" ++ uri
  else uri

/-- The three pure rewrites of `api.rs` in source order. -/
def rewriteUri (decrypt : String → String) (raw_uri : String) : String :=
  step3 (step2 (step1 decrypt raw_uri))

/-- The three pure rewrites of the `main.rs` copy (which has no secondary
resolution step). -/
def rewriteUriMain (decrypt : String → String) (raw_uri : String) : String :=
  step3 (step2 (step1Main decrypt raw_uri))

/-- Fourth rebinding (`api.rs` lines 193-197) on top of the pure rewrites:
secondary clock resolution with graceful fallback
(`resolve_clock_urls(&uri).unwrap_or(uri)`).  Returns the final URI
together with the list of URLs fetched by secondary GETs (empty or a
singleton), so that "performs no secondary network call" is statable. -/
def resolveUriWithCalls (decrypt : String → String) (net : String → Option Json)
    (raw_uri : String) : String × List String :=
  let uri := rewriteUri decrypt raw_uri
  if strContains uri "clock.json" then
    ((resolve_clock_urls net uri).getD uri, [uri])
  else (uri, [])

/-- Upstream source entry (`api.rs` `SourceUrl`). -/
structure SourceUrl where
  source_url : String
  source_name : String
deriving DecidableEq, Repr

/-- Episode payload of the episode-source query (`api.rs` `EpisodeData`). -/
structure EpisodeData where
  episode_string : String
  source_urls : List SourceUrl
deriving DecidableEq, Repr

/-- Post-parse logic of `Api::get_episode_links` (`api.rs` lines 168-206):
one `(provider_name, uri)` entry per upstream source, each URI fully
resolved.  Total: no error is possible after the response is parsed. -/
def get_episode_links (decrypt : String → String) (net : String → Option Json)
    (ep : EpisodeData) : String × List (String × String) :=
  (ep.episode_string,
    ep.source_urls.map (fun source =>
      (source.source_name, (resolveUriWithCalls decrypt net source.source_url).1)))

/-! ## `src/main.rs`: UI loop state -/

/-- Search-result entry (`main.rs` `AnimeEdge`). -/
structure AnimeEdge where
  id : String
  name : String
  english_name : Option String
  available_episodes : Option (List (String × Json))
  typename : String

/-- Tagged result messages delivered through the mpsc channel
(`main.rs` `ApiResponse`). -/
inductive ApiResponse where
  | Error (e : String)
  | SearchResp (edges : List AnimeEdge)
  | EpisodeListResp (v : String × List String × String)
  | EpisodeLinksResp (links : List (String × String))

/-- Length of the data sequence a successful response carries. -/
def ApiResponse.dataLen : ApiResponse → Nat
  | .Error _ => 0
  | .SearchResp edges => edges.length
  | .EpisodeListResp (_, ep_list, _) => ep_list.length
  | .EpisodeLinksResp links => links.length

/-- The fields of `main.rs` `App` that the UI loop mutates.  `args`, `api`
and the matcher scratch state are immutable or external and are omitted;
`input` is the query text (`self.input.value()`), `tableSelected` is
`widget_states.table.selected()`. -/
structure AppState where
  input : String
  resp : ApiResponse
  rows_to_data_index : List Nat
  tableSelected : Option Nat
  exit : Bool

/-- `App::new` (`main.rs` lines 302-316): empty input, `Error("")`
response, empty row map, default (unselected) table state. -/
def App.new : AppState :=
  { input := ""
    resp := .Error ""
    rows_to_data_index := []
    tableSelected := none
    exit := false }

/-- `self.widget_states.table.select(Some(0))` — executed once at the top
of `App::main_loop` (line 329), before the loop. -/
def mainLoopStart (s : AppState) : AppState :=
  { s with tableSelected := some 0 }

/-- Applying one received channel message (`main.rs` lines 332-346): a
successful message resets `rows_to_data_index` to the identity over its
data, an `Error` message leaves the row map alone; in all cases
`self.resp = api_resp`. -/
def applyMsg (s : AppState) (api_resp : ApiResponse) : AppState :=
  let rows :=
    match api_resp with
    | .SearchResp resp => List.range resp.length
    | .EpisodeListResp (_, ep_list, _) => List.range ep_list.length
    | .EpisodeLinksResp links => List.range links.length
    | _ => s.rows_to_data_index
  { s with rows_to_data_index := rows, resp := api_resp }

/-- Shared body of the three match arms of `App::update_row_to_data_index`
(`main.rs` lines 446-491; the source repeats it inline per arm): score
every item, keep matches with their original index, stable-sort by
descending score (`sort_by(|a, b| b.1.cmp(&a.1))`), project the indices. -/
def fuzzyMatch (f : α → Option Nat) (data : List α) : List Nat :=
  let matches_result := data.enum.filterMap (fun p => (f p.2).map (fun sc => (p.1, sc)))
  let sorted := sortByStable (fun a b => decide (b.2 ≤ a.2)) matches_result
  sorted.map (fun p => p.1)

/-- `App::update_row_to_data_index` (`main.rs` lines 436-496), with the
nucleo matcher abstracted as `score query haystack`.  The haystack is the
title for search results, the label for episodes, the provider name for
links; on `Error` the function returns early leaving the state unchanged. -/
def update_row_to_data_index (score : String → String → Option Nat)
    (s : AppState) : AppState :=
  match s.resp with
  | .SearchResp resp =>
    { s with rows_to_data_index := fuzzyMatch (fun item => score s.input item.name) resp }
  | .EpisodeListResp (_, ep_list, _) =>
    { s with rows_to_data_index := fuzzyMatch (fun item => score s.input item) ep_list }
  | .EpisodeLinksResp links =>
    { s with rows_to_data_index := fuzzyMatch (fun item => score s.input item.1) links }
  | .Error _ => s

/-- One iteration effect of the UI loop on the app state (`main.rs` lines
331-431): receiving a channel message; the `is_empty`-guarded or
input-edit-triggered filter recomputation (an edit replaces the query
text first); cursor movement (`select_next` / `select_previous` /
`select(Some(0))` are all covered by an arbitrary new cursor); setting
`exit` after the player exits.  `Enter` confirmations only spawn
background tasks and change no state. -/
inductive AppStep (score : String → String → Option Nat) : AppState → AppState → Prop
  | msg (s : AppState) (m : ApiResponse) : AppStep score s (applyMsg s m)
  | filter (s : AppState) : AppStep score s (update_row_to_data_index score s)
  | edit (s : AppState) (t : String) :
      AppStep score s (update_row_to_data_index score { s with input := t })
  | cursor (s : AppState) (c : Option Nat) : AppStep score s { s with tableSelected := c }
  | setExit (s : AppState) (b : Bool) : AppStep score s { s with exit := b }

/-- States the UI loop can reach from `App::new`. -/
inductive Reachable (score : String → String → Option Nat) : AppState → Prop
  | init : Reachable score App.new
  | step {s s' : AppState} : Reachable score s → AppStep score s s' → Reachable score s'

/-- The spec's `RowIndexMap` invariant, for states whose active view has a
data sequence (an `Error` view renders nothing and has no data). -/
def RowsInvariant (s : AppState) : Prop :=
  match s.resp with
  | .Error _ => True
  | _ =>
    (∀ i ∈ s.rows_to_data_index, i < s.resp.dataLen) ∧
      s.rows_to_data_index.Nodup ∧
      s.rows_to_data_index.length ≤ s.resp.dataLen

/-! ## Helper lemmas: string prefixes -/

theorem isPrefixB_iff (p l : List Char) :
    isPrefixB p l = true ↔ ∃ t, l = p ++ t := by
  induction p generalizing l with
  | nil => simp [isPrefixB]
  | cons a as ih =>
    cases l with
    | nil => simp [isPrefixB]
    | cons b bs =>
      simp only [isPrefixB, Bool.and_eq_true, beq_iff_eq, ih, List.cons_append, List.cons.injEq]
      constructor
      · rintro ⟨rfl, t, rfl⟩; exact ⟨t, rfl, rfl⟩
      · rintro ⟨t, rfl, rfl⟩; exact ⟨rfl, t, rfl⟩

/-! ## Helper lemmas: the float comparator

`fkey` interprets non-NaN float values in the linear order
`WithBot (WithTop ℚ)` (`-inf` at the bottom, `+inf` at the top); the
comparator lemmas below let the sort proofs reason numerically. -/

theorem scaled_lt_iff (m1 e1 m2 e2 k : Int) (hk1 : k ≤ e1) (hk2 : k ≤ e2) :
    (m1 * 10 ^ (e1 - k).toNat < m2 * 10 ^ (e2 - k).toNat) ↔
      finVal m1 e1 < finVal m2 e2 := by
  have hten : (10 : ℚ) ≠ 0 := by norm_num
  have hpow : (0 : ℚ) < (10 : ℚ) ^ (-k) := zpow_pos (by norm_num) _
  have key : ∀ m e : Int, k ≤ e →
      ((m * 10 ^ (e - k).toNat : Int) : ℚ) = finVal m e * (10 : ℚ) ^ (-k) := by
    intro m e hke
    have he : ((e - k).toNat : Int) = e - k := Int.toNat_of_nonneg (by omega)
    push_cast
    rw [← zpow_natCast (10 : ℚ) (e - k).toNat, he, zpow_sub₀ hten, zpow_neg, div_eq_mul_inv,
      finVal]
    ring
  rw [← Int.cast_lt (R := ℚ), key m1 e1 hk1, key m2 e2 hk2, mul_lt_mul_right hpow]

theorem fcmp_ne_gt_iff (x y : FVal) (hx : x ≠ .nan) (hy : y ≠ .nan) :
    (fcmp x y ≠ some .gt) ↔ fkey x ≤ fkey y := by
  cases x with
  | nan => exact absurd rfl hx
  | negInf => cases y with
    | nan => exact absurd rfl hy
    | negInf => simp [fcmp, fkey]
    | posInf => simp [fcmp, fkey]
    | fin m e => simp [fcmp, fkey]
  | posInf => cases y with
    | nan => exact absurd rfl hy
    | negInf => simp [fcmp, fkey]
    | posInf => simp [fcmp, fkey]
    | fin m e => simp [fcmp, fkey]
  | fin m1 e1 => cases y with
    | nan => exact absurd rfl hy
    | negInf => simp [fcmp, fkey]
    | posInf => simp [fcmp, fkey]
    | fin m2 e2 =>
      have hlt1 := scaled_lt_iff m1 e1 m2 e2 (min e1 e2) (min_le_left _ _) (min_le_right _ _)
      have hlt2 := scaled_lt_iff m2 e2 m1 e1 (min e1 e2) (min_le_right _ _) (min_le_left _ _)
      simp only [fcmp, fkey, ne_eq, Option.some.injEq, WithBot.coe_le_coe, WithTop.coe_le_coe]
      by_cases h1 : m1 * 10 ^ (e1 - min e1 e2).toNat < m2 * 10 ^ (e2 - min e1 e2).toNat
      · simp only [h1, if_true]
        simp [le_of_lt (hlt1.mp h1)]
      · by_cases h2 : m2 * 10 ^ (e2 - min e1 e2).toNat < m1 * 10 ^ (e1 - min e1 e2).toNat
        · simp only [h1, if_false, h2, if_true]
          simp [not_le.mpr (hlt2.mp h2)]
        · have hq : finVal m1 e1 = finVal m2 e2 := by
            have a1 : ¬ finVal m1 e1 < finVal m2 e2 := fun h => h1 (hlt1.mpr h)
            have a2 : ¬ finVal m2 e2 < finVal m1 e1 := fun h => h2 (hlt2.mpr h)
            linarith
          simp only [h1, if_false, h2, if_false]
          simp [hq.le]

theorem fcmp_isSome (x y : FVal) (hx : x ≠ .nan) (hy : y ≠ .nan) :
    ∃ o, fcmp x y = some o := by
  cases x <;> cases y <;> simp_all [fcmp]

/-- On non-NaN sort keys, the source comparator agrees with the numeric
order. -/
theorem epLe_iff (a b : String) (ha : epval a ≠ .nan) (hb : epval b ≠ .nan) :
    epLe a b = true ↔ fkey (epval a) ≤ fkey (epval b) := by
  obtain ⟨o, ho⟩ := fcmp_isSome (epval a) (epval b) ha hb
  have h1 : epLe a b = true ↔ fcmp (epval a) (epval b) ≠ some .gt := by
    rw [epLe, epOrd, ho, Option.getD_some]
    cases o <;> simp <;> decide
  rw [h1, fcmp_ne_gt_iff _ _ ha hb]


/-! ## Helper lemmas: the stable sort -/

theorem insertLe_perm (le : α → α → Bool) (a : α) (l : List α) :
    (insertLe le a l).Perm (a :: l) := by
  induction l with
  | nil => simp [insertLe]
  | cons b l ih =>
    simp only [insertLe]
    by_cases h : le a b
    · simp [h]
    · simp only [h, if_neg, Bool.false_eq_true, not_false_eq_true]
      exact (ih.cons b).trans (List.Perm.swap a b l)

theorem sortByStable_perm (le : α → α → Bool) (l : List α) :
    (sortByStable le l).Perm l := by
  induction l with
  | nil => simp [sortByStable]
  | cons a l ih =>
    exact (insertLe_perm le a (sortByStable le l)).trans (ih.cons a)

theorem mem_insertLe (le : α → α → Bool) (a x : α) (l : List α) :
    x ∈ insertLe le a l ↔ x = a ∨ x ∈ l := by
  have := (insertLe_perm le a l).mem_iff (a := x)
  simpa using this

theorem pairwise_insertLe (le : α → α → Bool) (P : α → Prop)
    (htot : ∀ {a b}, P a → P b → le a b = true ∨ le b a = true)
    (htr : ∀ {a b c}, P a → P b → P c → le a b = true → le b c = true → le a c = true)
    (a : α) (l : List α) (ha : P a) (hl : ∀ x ∈ l, P x)
    (hp : l.Pairwise (le · · = true)) :
    (insertLe le a l).Pairwise (le · · = true) := by
  induction l with
  | nil => simp [insertLe]
  | cons b l ih =>
    have hb : P b := hl b (by simp)
    have hl' : ∀ x ∈ l, P x := fun x hx => hl x (by simp [hx])
    rw [List.pairwise_cons] at hp
    simp only [insertLe]
    by_cases h : le a b
    · simp only [h, if_true]
      refine List.Pairwise.cons ?_ (List.Pairwise.cons hp.1 hp.2)
      intro x hx
      rcases List.mem_cons.mp hx with rfl | hx
      · exact h
      · exact htr ha hb (hl' x hx) h (hp.1 x hx)
    · simp only [h, if_neg, Bool.false_eq_true, not_false_eq_true]
      refine List.Pairwise.cons ?_ (ih hl' hp.2)
      intro x hx
      rw [mem_insertLe] at hx
      rcases hx with rfl | hx
      · rcases htot ha hb with h' | h'
        · exact absurd h' (by simpa using h)
        · exact h'
      · exact hp.1 x hx

theorem pairwise_sortByStable (le : α → α → Bool) (P : α → Prop)
    (htot : ∀ {a b}, P a → P b → le a b = true ∨ le b a = true)
    (htr : ∀ {a b c}, P a → P b → P c → le a b = true → le b c = true → le a c = true)
    (l : List α) (hl : ∀ x ∈ l, P x) :
    (sortByStable le l).Pairwise (le · · = true) := by
  induction l with
  | nil => simp [sortByStable]
  | cons a l ih =>
    have ha : P a := hl a (by simp)
    have hl' : ∀ x ∈ l, P x := fun x hx => hl x (by simp [hx])
    have hmem : ∀ x ∈ sortByStable le l, P x := fun x hx =>
      hl' x ((sortByStable_perm le l).mem_iff.mp hx)
    exact pairwise_insertLe le P htot htr a (sortByStable le l) ha hmem (ih hl')

/-! ## Helper lemmas: the fuzzy filter -/

theorem pairwise_enum_fst_lt (l : List α) :
    l.enum.Pairwise (fun p q => p.1 < q.1) := by
  have h : (List.map Prod.fst l.enum).Pairwise (· < ·) := by
    rw [List.enum_map_fst]
    exact List.pairwise_lt_range _
  exact List.pairwise_map.mp h

theorem fuzzyMatch_pairwise_fst (f : α → Option Nat) (data : List α) :
    (data.enum.filterMap (fun p => (f p.2).map (fun sc => (p.1, sc)))).Pairwise
      (fun p q : Nat × Nat => p.1 < q.1) := by
  rw [List.pairwise_filterMap]
  refine (pairwise_enum_fst_lt data).imp ?_
  intro p q hpq x hx y hy
  obtain ⟨sx, _, rfl⟩ := Option.map_eq_some'.mp hx
  obtain ⟨sy, _, rfl⟩ := Option.map_eq_some'.mp hy
  exact hpq

theorem fuzzyMatch_mem (f : α → Option Nat) (data : List α) (i : Nat)
    (hi : i ∈ fuzzyMatch f data) : i < data.length := by
  unfold fuzzyMatch at hi
  simp only [List.mem_map] at hi
  obtain ⟨p, hp, rfl⟩ := hi
  have hp' := (sortByStable_perm _ _).mem_iff.mp hp
  simp only [List.mem_filterMap] at hp'
  obtain ⟨q, hq, hmap⟩ := hp'
  obtain ⟨sc, _, rfl⟩ := Option.map_eq_some'.mp hmap
  obtain ⟨j, x⟩ := q
  exact (List.mem_enum hq).1

theorem fuzzyMatch_nodup (f : α → Option Nat) (data : List α) :
    (fuzzyMatch f data).Nodup := by
  unfold fuzzyMatch
  rw [List.Nodup, List.pairwise_map]
  have hpf := fuzzyMatch_pairwise_fst f data
  have hperm := sortByStable_perm (fun a b : Nat × Nat => decide (b.2 ≤ a.2))
    (data.enum.filterMap (fun p => (f p.2).map (fun sc => (p.1, sc))))
  have hsym : ∀ {x y : Nat × Nat}, x.1 ≠ y.1 → y.1 ≠ x.1 := fun h => h.symm
  exact (hperm.pairwise_iff hsym).mpr (hpf.imp (fun h => Nat.ne_of_lt h))

theorem fuzzyMatch_length (f : α → Option Nat) (data : List α) :
    (fuzzyMatch f data).length ≤ data.length := by
  unfold fuzzyMatch
  rw [List.length_map, (sortByStable_perm _ _).length_eq]
  calc (data.enum.filterMap (fun p => (f p.2).map (fun sc => (p.1, sc)))).length
      ≤ data.enum.length := List.length_filterMap_le _ _
    _ = data.length := List.enum_length

/-! ## Claims -/

/-- C1: for every per-mode episode map and every mode present in it,
`get_episode_list` returns the mode's episode labels sorted ascending by
the numeric value obtained by parsing each label as a floating-point
number, labels that fail to parse being treated as zero (`fkey ∘ epval` is
that numeric value); in particular the map `sub ↦ ["2", "10", "1"]` with
mode `sub` yields `["1", "2", "10"]`.  The sortedness hypothesis requires
that no label parses to NaN: a NaN key makes the source comparator
non-transitive, and `slice::sort_by` guarantees no particular order in
that case. -/
theorem c1_episode_list_sorted (mode name id : String)
    (m : List (String × List String)) (episodes : List String)
    (hmode : m.lookup mode = some episodes)
    (hnan : ∀ l ∈ episodes, epval l ≠ FVal.nan) :
    get_episode_list mode ⟨id, name, m⟩
        = .ok (name, sortByStable epLe episodes, id)
    ∧ (sortByStable epLe episodes).Perm episodes
    ∧ (sortByStable epLe episodes).Pairwise
        (fun a b => fkey (epval a) ≤ fkey (epval b))
    ∧ get_episode_list "sub" ⟨"i", "n", [("sub", ["2", "10", "1"])]⟩
        = .ok ("n", ["1", "2", "10"], "i") := by
  refine ⟨?_, sortByStable_perm epLe episodes, ?_, by rfl⟩
  · simp [get_episode_list, hmode]
  · have htot : ∀ {a b : String}, epval a ≠ FVal.nan → epval b ≠ FVal.nan →
        epLe a b = true ∨ epLe b a = true := by
      intro a b ha hb
      rcases le_total (fkey (epval a)) (fkey (epval b)) with h | h
      · exact Or.inl ((epLe_iff a b ha hb).mpr h)
      · exact Or.inr ((epLe_iff b a hb ha).mpr h)
    have htr : ∀ {a b c : String}, epval a ≠ FVal.nan → epval b ≠ FVal.nan →
        epval c ≠ FVal.nan → epLe a b = true → epLe b c = true → epLe a c = true := by
      intro a b c ha hb hc h1 h2
      exact (epLe_iff a c ha hc).mpr
        (le_trans ((epLe_iff a b ha hb).mp h1) ((epLe_iff b c hb hc).mp h2))
    have hp := pairwise_sortByStable epLe (fun s => epval s ≠ FVal.nan) htot htr episodes hnan
    refine hp.imp_of_mem ?_
    intro a b ha hb h
    exact (epLe_iff a b
      (hnan a ((sortByStable_perm epLe episodes).mem_iff.mp ha))
      (hnan b ((sortByStable_perm epLe episodes).mem_iff.mp hb))).mp h

/-- Witness for C1 at the spec's concrete instance. -/
theorem c1_episode_list_sorted_witness :
    get_episode_list "sub" ⟨"i", "n", [("sub", ["2", "10", "1"])]⟩
      = .ok ("n", ["1", "2", "10"], "i") :=
  (c1_episode_list_sorted "sub" "n" "i" [("sub", ["2", "10", "1"])] ["2", "10", "1"]
    (by rfl) (by decide)).2.2.2

/-- C8: `get_episode_list` returns the error naming the configured mode
exactly when the mode key is absent from the per-mode episode map. -/
theorem c8_mode_not_found (mode : String) (showd : ShowDetail) :
    get_episode_list mode showd
        = .error ("No episodes found for mode \x27" ++ mode ++ "\x27")
      ↔ showd.available_episodes_detail.lookup mode = none := by
  cases h : showd.available_episodes_detail.lookup mode <;>
    simp [get_episode_list, h]

/-- C2: in `get_episode_links`, whenever the secondary clock resolution
fails — the GET fails, the JSON does not decode, or the first element of
the `links` array has no string `link` field (all the `none` cases of
`resolve_clock_urls`) — the link resolves to the pre-secondary-resolution
URI instead of an error; and `get_episode_links` never fails after
parsing: it returns exactly one entry per upstream source. -/
theorem c2_clock_fallback (decrypt : String → String) (net : String → Option Json) :
    (∀ raw_uri, resolve_clock_urls net (rewriteUri decrypt raw_uri) = none →
      (resolveUriWithCalls decrypt net raw_uri).1 = rewriteUri decrypt raw_uri)
    ∧ ∀ ep : EpisodeData,
        (get_episode_links decrypt net ep).2.length = ep.source_urls.length := by
  constructor
  · intro raw_uri h
    unfold resolveUriWithCalls
    by_cases hc : strContains (rewriteUri decrypt raw_uri) "clock.json" = true
    · simp [hc, h]
    · simp [hc]
  · intro ep
    simp [get_episode_links]

/-- Witness for C2: a bare `/apivtwo/clock` locator is normalized to a
`clock.json` URL, and with a failing secondary GET the link still resolves
to that URL. -/
theorem c2_clock_fallback_witness :
    (resolveUriWithCalls (fun s => s) (fun _ => none) "/apivtwo/clock").1
      = rewriteUri (fun s => s) "/apivtwo/clock" :=
  (c2_clock_fallback (fun s => s) (fun _ => none)).1 "/apivtwo/clock" (by rfl)

/-- C3 counterexample: the claim says every post-de-obfuscation locator
beginning with `//` is prefixed with `https:`.  The `main.rs` copy of the
pipeline (the one the running app uses) prefixes `http:` instead; and in
both copies a de-obfuscated locator that carried the `--` marker and
begins with `//` receives no scheme at all (protocol completion is the
`else if` of de-obfuscation). -/
theorem c3_protocol_completion_cex :
    rewriteUriMain (fun s => s) "//cdn.example/x" = "http://cdn.example/x"
    ∧ "http://cdn.example/x" ≠ "https://cdn.example/x"
    ∧ rewriteUri (fun _ => "//cdn.example/x") "--zz" = "//cdn.example/x" := by
  refine ⟨by rfl, by decide, by rfl⟩

/-- C3 as amended: in the `api.rs` pipeline a locator that does not carry
the `--` obfuscation marker and begins with `//` is prefixed with
`https:` (the `main.rs` copy prefixes `http:` instead; a de-obfuscated
locator beginning with `//` is not protocol-completed in either copy);
a URI beginning with `/apivtwo/` is prefixed with the host
`https://allanime.day`; in particular `//cdn.example/x` resolves to
`https://cdn.example/x` and `/apivtwo/x` to
`https://allanime.day/apivtwo/x` under the `api.rs` rewrites. -/
theorem c3_protocol_completion_amended (decrypt : String → String) (raw_uri u : String)
    (hm : strStarts raw_uri "--" = false) (hp : strStarts raw_uri "//" = true)
    (hu : strStarts u "/apivtwo/" = true) :
    step1 decrypt raw_uri = "https:" ++ raw_uri
    ∧ step1Main decrypt raw_uri = "http:" ++ raw_uri
    ∧ step3 u = "https://allanime.day" ++ u
    ∧ rewriteUri decrypt "//cdn.example/x" = "https://cdn.example/x"
    ∧ rewriteUri decrypt "/apivtwo/x" = "https://allanime.day/apivtwo/x" := by
  refine ⟨?_, ?_, ?_, by rfl, by rfl⟩
  · simp [step1, hm, hp]
  · simp [step1Main, hm, hp]
  · simp [step3, hu]

/-- Witness for C3 (amended) at the spec's concrete locators. -/
theorem c3_protocol_completion_witness :
    step1 (fun s => s) "//cdn.example/x" = "https:" ++ "//cdn.example/x" :=
  (c3_protocol_completion_amended (fun s => s) "//cdn.example/x" "/apivtwo/x"
    (by decide) (by decide) (by decide)).1

/-- C4 counterexample: the claim exempts only URIs with a `/clock` path
segment, but the secondary-call trigger is the substring test
`uri.contains("clock.json")`.  The URI `https://x/aclock.json` begins with
`https://`, does not begin with `--` and has no `/clock` path segment (no
`/clock` substring at all), yet the pipeline issues a secondary GET for it
and — when that GET succeeds — rewrites it. -/
theorem c4_idempotence_cex :
    strStarts "https://x/aclock.json" "https://" = true
    ∧ strStarts "https://x/aclock.json" "--" = false
    ∧ strContains "https://x/aclock.json" "/clock" = false
    ∧ resolveUriWithCalls (fun s => s)
        (fun _ => some (Json.obj [("links",
          Json.arr [Json.obj [("link", Json.str "https://other/video.mp4")]])]))
        "https://x/aclock.json"
      = ("https://other/video.mp4", ["https://x/aclock.json"]) := by
  refine ⟨by decide, by decide, by decide, by rfl⟩

/-- C4 as amended: the rewrites are the identity — and no secondary call
is issued — on every URI that begins with `https://` and contains neither
the substring `/clock` nor the substring `clock.json` (the source's
conditions are substring tests, so the exemption must exclude
`clock.json` occurrences as well, not only `/clock` path segments). -/
theorem c4_idempotence_amended (decrypt : String → String) (net : String → Option Json)
    (uri : String)
    (h1 : strStarts uri "https://" = true)
    (h2 : strContains uri "/clock" = false)
    (h3 : strContains uri "clock.json" = false) :
    resolveUriWithCalls decrypt net uri = (uri, []) := by
  rw [strStarts] at h1
  obtain ⟨t, ht⟩ := (isPrefixB_iff _ _).mp h1
  have e1 : step1 decrypt uri = uri := by
    simp [step1, strStarts, ht, isPrefixB]
  have e2 : step2 uri = uri := by
    simp [step2, h2]
  have e3 : step3 uri = uri := by
    simp [step3, strStarts, ht, isPrefixB]
  simp [resolveUriWithCalls, rewriteUri, e1, e2, e3, h3]

/-- Witness for C4 (amended) at a concrete resolved URI. -/
theorem c4_idempotence_witness :
    resolveUriWithCalls (fun s => s) (fun _ => none) "https://wixmp.example/video.mp4"
      = ("https://wixmp.example/video.mp4", []) :=
  c4_idempotence_amended (fun s => s) (fun _ => none) "https://wixmp.example/video.mp4"
    (by decide) (by decide) (by decide)

/-- C5: draining two channel messages in arrival order leaves the view
state equal to the data carried by the second-arriving message, whatever
the first message set (`self.resp = api_resp` is unconditional). -/
theorem c5_last_message_wins (s : AppState) (m1 m2 : ApiResponse) :
    (applyMsg (applyMsg s m1) m2).resp = m2 := rfl

/-- C6: every successful result message carrying a data set of size `n`
resets `rows_to_data_index` to the identity permutation `[0, …, n-1]`
over that data set, for all three message kinds. -/
theorem c6_identity_row_index (s : AppState) (edges : List AnimeEdge)
    (name : String) (ep_list : List String) (id : String)
    (links : List (String × String)) :
    (applyMsg s (.SearchResp edges)).rows_to_data_index = List.range edges.length
    ∧ (applyMsg s (.EpisodeListResp (name, ep_list, id))).rows_to_data_index
        = List.range ep_list.length
    ∧ (applyMsg s (.EpisodeLinksResp links)).rows_to_data_index
        = List.range links.length :=
  ⟨rfl, rfl, rfl⟩

/-- C7 counterexample: applying an arriving result message does not reset
the row cursor — from cursor position 3, an episode-list arrival leaves
the cursor at 3, not 0.  (`table.select(Some(0))` runs once before the
loop, not on transitions.) -/
theorem c7_cursor_reset_cex :
    (applyMsg
        { input := ""
          resp := .Error ""
          rows_to_data_index := []
          tableSelected := some 3
          exit := false }
        (.EpisodeListResp ("n", ["1", "2"], "i"))).tableSelected = some 3
    ∧ (some 3 : Option Nat) ≠ some 0 :=
  ⟨rfl, by decide⟩

/-- C7 as amended: the row cursor is set to position 0 once, when the
main loop starts and before any message arrives; the arrival of a result
message leaves the cursor unchanged (it is not reset per transition). -/
theorem c7_cursor_amended :
    (mainLoopStart App.new).tableSelected = some 0
    ∧ ∀ (s : AppState) (m : ApiResponse),
        (applyMsg s m).tableSelected = s.tableSelected :=
  ⟨rfl, fun _ _ => rfl⟩

/-- C10: recomputing the fuzzy filter modifies only `rows_to_data_index`:
the active view's data (`resp`), the query text (`input`), the cursor and
the exit flag are unchanged, and on an `Error` view the whole state —
`rows_to_data_index` included — is left as it was (early return). -/
theorem c10_filter_frame (score : String → String → Option Nat) (s : AppState) :
    (update_row_to_data_index score s).resp = s.resp
    ∧ (update_row_to_data_index score s).input = s.input
    ∧ (update_row_to_data_index score s).tableSelected = s.tableSelected
    ∧ (update_row_to_data_index score s).exit = s.exit
    ∧ ∀ e, s.resp = .Error e → update_row_to_data_index score s = s := by
  rcases s with ⟨i, r, rows, t, ex⟩
  cases r <;> simp [update_row_to_data_index]

/-- Witness for C10 on the initial state, whose view is the `Error`
variant. -/
theorem c10_filter_frame_witness :
    update_row_to_data_index (fun _ _ => none) App.new = App.new :=
  (c10_filter_frame (fun _ _ => none) App.new).2.2.2.2 "" rfl

/-- Introduction form of `RowsInvariant` for any view. -/
theorem rowsInvariant_of (s : AppState)
    (h : (∀ i ∈ s.rows_to_data_index, i < s.resp.dataLen)
      ∧ s.rows_to_data_index.Nodup
      ∧ s.rows_to_data_index.length ≤ s.resp.dataLen) :
    RowsInvariant s := by
  rcases s with ⟨inp, r, rows, t, ex⟩
  cases r with
  | Error e => exact trivial
  | SearchResp edges => exact h
  | EpisodeListResp v => exact h
  | EpisodeLinksResp links => exact h

/-- Applying any channel message preserves (and for successful messages
re-establishes) the row-map invariant. -/
theorem applyMsg_invariant (s : AppState) (m : ApiResponse) :
    RowsInvariant (applyMsg s m) := by
  cases m with
  | Error e => trivial
  | SearchResp edges =>
    exact rowsInvariant_of _
      ⟨fun i hi => List.mem_range.mp hi, List.nodup_range _, le_of_eq (List.length_range _)⟩
  | EpisodeListResp v =>
    obtain ⟨name, ep_list, id⟩ := v
    exact rowsInvariant_of _
      ⟨fun i hi => List.mem_range.mp hi, List.nodup_range _, le_of_eq (List.length_range _)⟩
  | EpisodeLinksResp links =>
    exact rowsInvariant_of _
      ⟨fun i hi => List.mem_range.mp hi, List.nodup_range _, le_of_eq (List.length_range _)⟩

/-- Recomputing the fuzzy filter establishes the row-map invariant. -/
theorem update_invariant (score : String → String → Option Nat) (s : AppState)
    (h : RowsInvariant s) :
    RowsInvariant (update_row_to_data_index score s) := by
  rcases s with ⟨inp, r, rows, t, ex⟩
  cases r with
  | Error e => exact h
  | SearchResp edges =>
    have e : update_row_to_data_index score
        ⟨inp, .SearchResp edges, rows, t, ex⟩
        = ⟨inp, .SearchResp edges,
            fuzzyMatch (fun item => score inp item.name) edges, t, ex⟩ := rfl
    rw [e]
    refine rowsInvariant_of _ ⟨?_, ?_, ?_⟩
    · exact fun i hi => fuzzyMatch_mem (fun item => score inp item.name) edges i hi
    · exact fuzzyMatch_nodup (fun item => score inp item.name) edges
    · exact fuzzyMatch_length (fun item => score inp item.name) edges
  | EpisodeListResp v =>
    obtain ⟨name, ep_list, id⟩ := v
    have e : update_row_to_data_index score
        ⟨inp, .EpisodeListResp (name, ep_list, id), rows, t, ex⟩
        = ⟨inp, .EpisodeListResp (name, ep_list, id),
            fuzzyMatch (fun item => score inp item) ep_list, t, ex⟩ := rfl
    rw [e]
    refine rowsInvariant_of _ ⟨?_, ?_, ?_⟩
    · exact fun i hi => fuzzyMatch_mem (fun item => score inp item) ep_list i hi
    · exact fuzzyMatch_nodup (fun item => score inp item) ep_list
    · exact fuzzyMatch_length (fun item => score inp item) ep_list
  | EpisodeLinksResp links =>
    have e : update_row_to_data_index score
        ⟨inp, .EpisodeLinksResp links, rows, t, ex⟩
        = ⟨inp, .EpisodeLinksResp links,
            fuzzyMatch (fun item => score inp item.1) links, t, ex⟩ := rfl
    rw [e]
    refine rowsInvariant_of _ ⟨?_, ?_, ?_⟩
    · exact fun i hi => fuzzyMatch_mem (fun item => score inp item.1) links i hi
    · exact fuzzyMatch_nodup (fun item => score inp item.1) links
    · exact fuzzyMatch_length (fun item => score inp item.1) links

/-- C9: in every state the UI loop can reach, every element of
`rows_to_data_index` is a valid index into the active view's data
sequence, the sequence has no duplicates, and its length is at most the
data sequence's length (stated for views that carry data; the `Error`
view renders nothing and has no data sequence). -/
theorem c9_rows_invariant (score : String → String → Option Nat) (s : AppState)
    (h : Reachable score s) : RowsInvariant s := by
  induction h with
  | init => trivial
  | step hr hstep ih =>
    cases hstep with
    | msg m => exact applyMsg_invariant _ m
    | filter => exact update_invariant score _ ih
    | edit t => exact update_invariant score _ ih
    | cursor c => exact ih
    | setExit b => exact ih

/-- Witness for C9 at the initial state. -/
theorem c9_rows_invariant_witness : RowsInvariant App.new :=
  c9_rows_invariant (fun _ _ => none) App.new Reachable.init
